import Mathlib

/-!

# PharmAssist — formal model of the order-fulfillment core

This file embeds the PharmAssist storage schema (`src/db/schema.sql`) and the
order-placement stored procedure `sp_PlaceOrder`
(`src/unnamed/part_000`, PL/pgSQL) as executable Lean definitions, and proves
the specified properties of the fulfillment core against them.

Modelling conventions:
* `NUMERIC(10,2)` money amounts are represented exactly as an integer number
  of cents; `NUMERIC(5,2)` discount percentages as an integer number of
  hundredths of a percent (0..10000); `DATE` as an integer day number;
  `SERIAL` ids as `Int`.
* Nullable SQL columns and nullable procedure arguments are `Option`s.
* A procedure call is a pure function from the database state to a trace of
  storage events (row reads, row locks, writes) and either a result (the new
  state plus the `OUT` arguments) or the raised error.  A `RAISE` aborts the
  enclosing transaction: the caller's rollback semantics is `spRun`, which
  keeps the old state whenever the procedure raises.
* Table constraints (primary keys, `CHECK`s) are not baked into the types;
  where a theorem needs them they appear as explicit hypotheses on the state.

The FEFO batch allocator and the multi-line checkout orchestrator of the
design document have no implementation in the repository (the stored
procedure sells from a single caller-chosen batch); they are modelled from
the specification text where so marked.
-/

namespace PharmAssist

/-- Row of `Customers` (columns `address`, `customer_type` are irrelevant to
the fulfillment core and omitted). -/
structure Customer where
  customer_id : Int
  name : String
deriving DecidableEq, Repr

/-- Row of `Product_SKUs` (`package_size`, `unit_type` omitted).
`base_price NUMERIC(10,2) NOT NULL CHECK (base_price >= 0)`, in cents. -/
structure Product_SKU where
  sku_id : Int
  product_id : Int
  base_price : Int
deriving DecidableEq, Repr

/-- Row of `Inventory_Batches`.  `quantity_on_hand INT NOT NULL
CHECK (quantity_on_hand >= 0)`; `cost_price` in cents; `expiry_date` as a
day number. -/
structure Inventory_Batch where
  batch_id : Int
  sku_id : Int
  batch_no : String
  expiry_date : Int
  quantity_on_hand : Int
  cost_price : Int
deriving DecidableEq, Repr

/-- Row of `Orders` (`order_date` omitted).  `status` is one of
`pending`, `processed`, `shipped`, `cancelled`. -/
structure Orders_Row where
  order_id : Int
  customer_id : Int
  status : String
deriving DecidableEq, Repr

/-- Row of `Order_Items`.  `sale_price NUMERIC(10,2)` in cents. -/
structure Order_Item where
  order_item_id : Int
  order_id : Int
  batch_id : Int
  quantity_ordered : Int
  sale_price : Int
deriving DecidableEq, Repr

/-- Row of `Pricing_Rules`.  `sku_id` and `customer_id` are nullable
(wildcards); `min_quantity INT DEFAULT 1` is nullable; `discount_percentage
NUMERIC(5,2)` is nullable, in hundredths of a percent. -/
structure Pricing_Rule where
  rule_id : Int
  sku_id : Option Int
  customer_id : Option Int
  min_quantity : Option Int
  discount_percentage : Option Int
deriving DecidableEq, Repr

/-- The database state: the tables touched by the fulfillment core, plus the
`SERIAL` sequences feeding `order_id` and `order_item_id`. -/
structure DBState where
  customers : List Customer
  skus : List Product_SKU
  batches : List Inventory_Batch
  rules : List Pricing_Rule
  orders : List Orders_Row
  order_items : List Order_Item
  next_order_id : Int
  next_order_item_id : Int
deriving DecidableEq, Repr

/-- Storage events issued by a procedure call, in program order.  A
`SELECT ... FOR UPDATE` that finds a row issues a read and a row lock; one
that finds no row locks nothing. -/
inductive StorageEv where
  | readBatch (batch_id : Int)
  | lockBatch (batch_id : Int)
  | readSku (sku_id : Int)
  | readPricingRules
  | insertOrder (order_id : Int)
  | updateBatch (batch_id : Int)
  | insertOrderItem (order_item_id : Int)
deriving DecidableEq, Repr

/-- Events that write a row. -/
def StorageEv.isWrite : StorageEv → Bool
  | .insertOrder _ => true
  | .updateBatch _ => true
  | .insertOrderItem _ => true
  | _ => false

/-- Events that take a row lock. -/
def StorageEv.isLock : StorageEv → Bool
  | .lockBatch _ => true
  | _ => false

/-- Errors raised by `sp_PlaceOrder` (each constructor corresponds to one
`RAISE EXCEPTION` site, or to the `Orders.customer_id` foreign-key violation
the engine raises at the `INSERT INTO Orders`). -/
inductive SpError where
  | invalidQuantity
  | customerIdRequired
  | batchIdRequired
  | batchNotFound (batch_id : Int)
  | insufficientStock (batch_id requested available : Int)
  | basePriceNotFound (sku_id batch_id : Int)
  | fkCustomerViolation (customer_id : Int)
deriving DecidableEq, Repr

/-- The state after a successful call together with the `OUT` arguments. -/
structure SpResult where
  state : DBState
  o_order_id : Int
  o_order_item_id : Int
  o_sale_price : Int
deriving DecidableEq, Repr

instance {ε α : Type} [DecidableEq ε] [DecidableEq α] : DecidableEq (Except ε α) :=
  fun x y =>
    match x, y with
    | Except.ok a, Except.ok b => decidable_of_iff (a = b) (by simp)
    | Except.error a, Except.error b => decidable_of_iff (a = b) (by simp)
    | Except.ok _, Except.error _ => isFalse (by simp)
    | Except.error _, Except.ok _ => isFalse (by simp)

/-- SQL `MAX` over a (possibly empty) list of values. -/
def listMax : List Int → Option Int
  | [] => none
  | x :: xs =>
    match listMax xs with
    | none => some x
    | some m => some (max x m)

/-- The `WHERE` clause of the discount query of `sp_PlaceOrder`:
`(sku_id IS NULL OR sku_id = v_sku_id) AND (customer_id IS NULL OR
customer_id = p_customer_id) AND p_quantity >= COALESCE(min_quantity, 1)`. -/
def ruleMatches (r : Pricing_Rule) (sku_id customer_id quantity : Int) : Bool :=
  decide (r.sku_id = none ∨ r.sku_id = some sku_id) &&
  decide (r.customer_id = none ∨ r.customer_id = some customer_id) &&
  decide (r.min_quantity.getD 1 ≤ quantity)

/-- The non-null `discount_percentage` values of the matching rules (SQL
aggregates skip NULLs). -/
def matchingDiscounts (rules : List Pricing_Rule) (sku_id customer_id quantity : Int) :
    List Int :=
  (rules.filter (fun r => ruleMatches r sku_id customer_id quantity)).filterMap
    (fun r => r.discount_percentage)

/-- `SELECT COALESCE(MAX(discount_percentage), 0) FROM Pricing_Rules WHERE ...`. -/
def maxDiscount (rules : List Pricing_Rule) (sku_id customer_id quantity : Int) : Int :=
  (listMax (matchingDiscounts rules sku_id customer_id quantity)).getD 0

/-- PostgreSQL `ROUND(x, s)` rounds half away from zero.  `sqlRound num den`
is that rounding applied to the exact rational `num / den` (`den > 0`),
once amounts are scaled so that the rounding target is an integer. -/
def sqlRound (num den : Int) : Int :=
  if 0 ≤ num then (2 * num + den) / (2 * den)
  else -((2 * (-num) + den) / (2 * den))

/-- `v_price := ROUND(v_base_price * (1 - v_discount/100.0), 2)` with
`base_price` in cents and `discount` in hundredths of a percent: the exact
product is `base_price * (10000 - discount) / 10000` cents, rounded to a
whole number of cents. -/
def computePrice (base_price discount : Int) : Int :=
  sqlRound (base_price * (10000 - discount)) 10000

/-- The body of `sp_PlaceOrder` (src/unnamed/part_000).  Returns the storage
events issued (in program order, up to the point of a raise) and either the
raised error or the new state with the `OUT` arguments. -/
def sp_PlaceOrder (st : DBState)
    (p_customer_id p_batch_id p_quantity : Option Int) :
    List StorageEv × Except SpError SpResult :=
  match p_quantity with
  | none => ([], Except.error SpError.invalidQuantity)
  | some q =>
    if q ≤ 0 then ([], Except.error SpError.invalidQuantity)
    else
      match p_customer_id with
      | none => ([], Except.error SpError.customerIdRequired)
      | some cid =>
        match p_batch_id with
        | none => ([], Except.error SpError.batchIdRequired)
        | some bid =>
          match st.batches.find? (fun b => b.batch_id == bid) with
          | none => ([StorageEv.readBatch bid], Except.error (SpError.batchNotFound bid))
          | some b =>
            let evs := [StorageEv.readBatch bid, StorageEv.lockBatch bid]
            if b.quantity_on_hand < q then
              (evs, Except.error (SpError.insufficientStock bid q b.quantity_on_hand))
            else
              match st.skus.find? (fun s => s.sku_id == b.sku_id) with
              | none =>
                (evs ++ [StorageEv.readSku b.sku_id],
                 Except.error (SpError.basePriceNotFound b.sku_id bid))
              | some sku =>
                let evs := evs ++ [StorageEv.readSku b.sku_id, StorageEv.readPricingRules]
                let v_discount := maxDiscount st.rules b.sku_id cid q
                let v_price := computePrice sku.base_price v_discount
                match st.customers.find? (fun c => c.customer_id == cid) with
                | none => (evs, Except.error (SpError.fkCustomerViolation cid))
                | some _ =>
                  let oid := st.next_order_id
                  let oiid := st.next_order_item_id
                  let st1 : DBState :=
                    { st with
                      orders := st.orders ++ [⟨oid, cid, "pending"⟩]
                      batches := st.batches.map (fun x =>
                        if x.batch_id == bid then
                          { x with quantity_on_hand := x.quantity_on_hand - q }
                        else x)
                      order_items := st.order_items ++ [⟨oiid, oid, bid, q, v_price⟩]
                      next_order_id := st.next_order_id + 1
                      next_order_item_id := st.next_order_item_id + 1 }
                  (evs ++ [StorageEv.insertOrder oid, StorageEv.updateBatch bid,
                           StorageEv.insertOrderItem oiid],
                   Except.ok ⟨st1, oid, oiid, v_price⟩)

/-- The caller runs `sp_PlaceOrder` in a transaction: when the procedure
raises, the transaction is rolled back and the database keeps its previous
state. -/
def spRun (st : DBState) (p_customer_id p_batch_id p_quantity : Option Int) : DBState :=
  match (sp_PlaceOrder st p_customer_id p_batch_id p_quantity).2 with
  | Except.ok r => r.state
  | Except.error _ => st

/-- A sample database state used by the concrete witnesses: one customer,
one SKU at 1.50 (150 cents), two batches of it (ids 1 and 2, stock 100 and
50), one discount rule (10% for customer 1 from 10 units). -/
def stA : DBState :=
  { customers := [⟨1, "PharmEasy Pharmacy"⟩]
    skus := [⟨1, 1, 150⟩]
    batches := [⟨1, 1, "P500-A1", 20270101, 100, 90⟩, ⟨2, 1, "P500-A2", 20260601, 50, 85⟩]
    rules := [⟨1, some 1, some 1, some 10, some 1000⟩]
    orders := []
    order_items := []
    next_order_id := 1
    next_order_item_id := 1 }

/-- C7: a `NULL`, zero or negative `p_quantity` is rejected by the first
validation of `sp_PlaceOrder` with the invalid-quantity error
(`Quantity must be > 0`): no storage event is issued — no row is read,
locked or written — and the state is unchanged. -/
theorem sp_PlaceOrder_rejects_invalid_quantity (st : DBState)
    (p_customer_id p_batch_id p_quantity : Option Int)
    (h : p_quantity = none ∨ ∃ q, p_quantity = some q ∧ q ≤ 0) :
    (sp_PlaceOrder st p_customer_id p_batch_id p_quantity).2
      = Except.error SpError.invalidQuantity
    ∧ (sp_PlaceOrder st p_customer_id p_batch_id p_quantity).1 = []
    ∧ spRun st p_customer_id p_batch_id p_quantity = st := by
  rcases h with h | ⟨q, hq, hle⟩
  · subst h; simp [sp_PlaceOrder, spRun]
  · subst hq
    have hle' : q ≤ 0 := hle
    simp [sp_PlaceOrder, spRun, if_pos hle']

theorem sp_PlaceOrder_rejects_invalid_quantity_witness :
    ((some (0:Int) = (none : Option Int)) ∨ ∃ q : Int, some (0:Int) = some q ∧ q ≤ 0)
    ∧ ((sp_PlaceOrder stA (some 1) (some 1) (some 0)).2
          = Except.error SpError.invalidQuantity
       ∧ (sp_PlaceOrder stA (some 1) (some 1) (some 0)).1 = []
       ∧ spRun stA (some 1) (some 1) (some 0) = stA) :=
  have h : (some (0:Int) = (none : Option Int)) ∨ ∃ q : Int, some (0:Int) = some q ∧ q ≤ 0 :=
    Or.inr ⟨0, rfl, by decide⟩
  ⟨h, sp_PlaceOrder_rejects_invalid_quantity stA (some 1) (some 1) (some 0) h⟩

/-- C2: when the requested quantity exceeds the locked batch's
`quantity_on_hand`, `sp_PlaceOrder` raises the insufficient-stock error
carrying the batch id, the requested quantity and the available quantity;
no write event has been issued before the raise, and the rolled-back
transaction leaves the state exactly as it was — no batch decrement, no
`Orders` row, no `Order_Items` row persists. -/
theorem sp_PlaceOrder_insufficient_stock (st : DBState) (cid bid q : Int)
    (b : Inventory_Batch) (hq : 0 < q)
    (hfind : st.batches.find? (fun x => x.batch_id == bid) = some b)
    (hins : b.quantity_on_hand < q) :
    (sp_PlaceOrder st (some cid) (some bid) (some q)).2
      = Except.error (SpError.insufficientStock bid q b.quantity_on_hand)
    ∧ (∀ e ∈ (sp_PlaceOrder st (some cid) (some bid) (some q)).1, e.isWrite = false)
    ∧ spRun st (some cid) (some bid) (some q) = st := by
  have hq' : ¬ q ≤ 0 := by omega
  simp [sp_PlaceOrder, spRun, hq', hfind, hins, StorageEv.isWrite]

theorem sp_PlaceOrder_insufficient_stock_witness :
    ((0:Int) < 500
     ∧ stA.batches.find? (fun x => x.batch_id == 1)
         = some ⟨1, 1, "P500-A1", 20270101, 100, 90⟩
     ∧ (100:Int) < 500)
    ∧ ((sp_PlaceOrder stA (some 1) (some 1) (some 500)).2
          = Except.error (SpError.insufficientStock 1 500 100)
       ∧ (∀ e ∈ (sp_PlaceOrder stA (some 1) (some 1) (some 500)).1, e.isWrite = false)
       ∧ spRun stA (some 1) (some 1) (some 500) = stA) :=
  ⟨⟨by decide, by decide, by decide⟩,
   sp_PlaceOrder_insufficient_stock stA 1 1 500 ⟨1, 1, "P500-A1", 20270101, 100, 90⟩
     (by decide) (by decide) (by decide)⟩

/-- In a list of batches with pairwise-distinct ids (the `batch_id` primary
key), any member carrying the id that `find?` located is the located row. -/
lemma batch_find?_unique {l : List Inventory_Batch} {b x : Inventory_Batch} {bid : Int}
    (hnd : (l.map (fun y => y.batch_id)).Nodup)
    (hfind : l.find? (fun y => y.batch_id == bid) = some b)
    (hx : x ∈ l) (hxid : x.batch_id = bid) : x = b := by
  have hb : b ∈ l := List.mem_of_find?_eq_some hfind
  have hbid : b.batch_id = bid := by
    have h := List.find?_some hfind
    simpa using h
  exact List.inj_on_of_nodup_map hnd hx hb (by rw [hxid, hbid])

/-- C1: from a state in which every batch's `quantity_on_hand` is
nonnegative (and `batch_id` is a key, as the schema's primary key
guarantees), any call to `sp_PlaceOrder` — committed or rolled back —
leaves every batch's `quantity_on_hand` nonnegative: the single decrement
is guarded by the sufficiency check made under the row lock. -/
theorem sp_PlaceOrder_stock_nonneg (st : DBState)
    (p_customer_id p_batch_id p_quantity : Option Int)
    (hnd : (st.batches.map (fun b => b.batch_id)).Nodup)
    (hinv : ∀ b ∈ st.batches, 0 ≤ b.quantity_on_hand) :
    ∀ b ∈ (spRun st p_customer_id p_batch_id p_quantity).batches,
      0 ≤ b.quantity_on_hand := by
  have key : ∀ (l : List Inventory_Batch) (bid q : Int) (bf : Inventory_Batch),
      (l.map (fun y => y.batch_id)).Nodup →
      l.find? (fun y => y.batch_id == bid) = some bf →
      ¬ bf.quantity_on_hand < q →
      (∀ b ∈ l, 0 ≤ b.quantity_on_hand) →
      ∀ b ∈ l.map (fun x => if x.batch_id == bid then
          { x with quantity_on_hand := x.quantity_on_hand - q } else x),
        0 ≤ b.quantity_on_hand := by
    intro l bid q bf hnd' hfind hstock hinv' b hb
    rcases List.mem_map.mp hb with ⟨x, hx, hxeq⟩
    by_cases hxb : x.batch_id == bid
    · have hxid : x.batch_id = bid := by simpa using hxb
      have hxf : x = bf := batch_find?_unique hnd' hfind hx hxid
      rw [if_pos hxb] at hxeq
      subst hxeq
      show 0 ≤ x.quantity_on_hand - q
      rw [hxf]
      omega
    · rw [if_neg hxb] at hxeq
      subst hxeq
      exact hinv' x hx
  intro b hb
  unfold spRun at hb
  split at hb
  · rename_i r heq
    unfold sp_PlaceOrder at heq
    repeat' split at heq
    all_goals try exact Except.noConfusion heq
    injection heq with hX
    subst hX
    exact key st.batches _ _ _ hnd (by assumption) (by assumption) hinv b hb
  · exact hinv b hb

theorem sp_PlaceOrder_stock_nonneg_witness :
    ((stA.batches.map (fun b => b.batch_id)).Nodup
     ∧ (∀ b ∈ stA.batches, 0 ≤ b.quantity_on_hand))
    ∧ (∀ b ∈ (spRun stA (some 1) (some 1) (some 30)).batches,
        0 ≤ b.quantity_on_hand) :=
  ⟨⟨by decide, by decide⟩,
   sp_PlaceOrder_stock_nonneg stA (some 1) (some 1) (some 30)
     (by decide) (by decide)⟩

/-- C9: on success, the `OUT` argument `o_sale_price` is exactly the
`sale_price` stored in the `Order_Items` row created by the call (the row
with id `o_order_item_id`), that row's `quantity_ordered` is the requested
quantity and its `batch_id` the requested batch, and the `Orders` row
created by the call (id `o_order_id`) belongs to the calling customer with
status `pending`. -/
theorem sp_PlaceOrder_outputs_match_rows (st : DBState) (cid bid q : Int) (r : SpResult)
    (h : (sp_PlaceOrder st (some cid) (some bid) (some q)).2 = Except.ok r) :
    (∃ oi ∈ r.state.order_items,
        oi.order_item_id = r.o_order_item_id ∧ oi.order_id = r.o_order_id ∧
        oi.sale_price = r.o_sale_price ∧ oi.quantity_ordered = q ∧ oi.batch_id = bid)
    ∧ (∃ o ∈ r.state.orders,
        o.order_id = r.o_order_id ∧ o.customer_id = cid ∧ o.status = "pending") := by
  unfold sp_PlaceOrder at h
  repeat' split at h
  all_goals try exact Except.noConfusion h
  injection h with hX
  subst hX
  simp_all
  exact ⟨⟨_, Or.inr rfl, rfl, rfl, rfl, rfl, rfl⟩, ⟨_, Or.inr rfl, rfl, rfl, rfl⟩⟩

theorem sp_PlaceOrder_outputs_match_rows_witness :
    ((sp_PlaceOrder stA (some 1) (some 2) (some 20)).2
        = Except.ok ⟨{ stA with
            batches := [⟨1, 1, "P500-A1", 20270101, 100, 90⟩,
                        ⟨2, 1, "P500-A2", 20260601, 30, 85⟩]
            orders := [⟨1, 1, "pending"⟩]
            order_items := [⟨1, 1, 2, 20, 135⟩]
            next_order_id := 2
            next_order_item_id := 2 }, 1, 1, 135⟩)
    ∧ (let r : SpResult := ⟨{ stA with
            batches := [⟨1, 1, "P500-A1", 20270101, 100, 90⟩,
                        ⟨2, 1, "P500-A2", 20260601, 30, 85⟩]
            orders := [⟨1, 1, "pending"⟩]
            order_items := [⟨1, 1, 2, 20, 135⟩]
            next_order_id := 2
            next_order_item_id := 2 }, 1, 1, 135⟩
       (∃ oi ∈ r.state.order_items,
          oi.order_item_id = r.o_order_item_id ∧ oi.order_id = r.o_order_id ∧
          oi.sale_price = r.o_sale_price ∧ oi.quantity_ordered = 20 ∧ oi.batch_id = 2)
       ∧ (∃ o ∈ r.state.orders,
          o.order_id = r.o_order_id ∧ o.customer_id = 1 ∧ o.status = "pending")) :=
  ⟨by decide, sp_PlaceOrder_outputs_match_rows stA 1 2 20 _ (by decide)⟩

/-- C8 (amended): an unknown batch id is rejected with the not-found error
during validation, after only a read — before any row lock and before any
write.  A NULL customer id is likewise rejected up front, but a non-NULL
unknown customer id is not checked during validation: the call still fails
(at the `INSERT INTO Orders` foreign key, so no call with an unknown
customer ever succeeds), no write is performed and the state is unchanged —
but the batch row lock may already have been acquired by then. -/
theorem sp_PlaceOrder_validation (st : DBState) (cid bid q : Int) (hq : 0 < q) :
    (st.batches.find? (fun x => x.batch_id == bid) = none →
      (sp_PlaceOrder st (some cid) (some bid) (some q)).2
          = Except.error (SpError.batchNotFound bid)
      ∧ (sp_PlaceOrder st (some cid) (some bid) (some q)).1 = [StorageEv.readBatch bid])
    ∧ (st.customers.find? (fun c => c.customer_id == cid) = none →
      (∀ r, (sp_PlaceOrder st (some cid) (some bid) (some q)).2 ≠ Except.ok r)
      ∧ (∀ e ∈ (sp_PlaceOrder st (some cid) (some bid) (some q)).1, e.isWrite = false)
      ∧ spRun st (some cid) (some bid) (some q) = st) := by
  have hq' : ¬ q ≤ 0 := by omega
  constructor
  · intro hfind
    simp [sp_PlaceOrder, hq', hfind]
  · intro hcust
    refine ⟨?_, ?_, ?_⟩
    · intro r hr
      simp only [sp_PlaceOrder] at hr
      rw [if_neg hq'] at hr
      repeat' split at hr
      all_goals try exact Except.noConfusion hr
      simp_all
    · have hall : ((sp_PlaceOrder st (some cid) (some bid) (some q)).1.all
          (fun e => !e.isWrite)) = true := by
        simp only [sp_PlaceOrder]
        rw [if_neg hq']
        repeat' split
        all_goals simp_all [StorageEv.isWrite]
      intro e he
      have h2 := List.all_eq_true.mp hall e he
      simpa using h2
    · unfold spRun
      split
      · rename_i r heq
        exfalso
        simp only [sp_PlaceOrder] at heq
        rw [if_neg hq'] at heq
        repeat' split at heq
        all_goals try exact Except.noConfusion heq
        simp_all
      · rfl

theorem sp_PlaceOrder_validation_witness :
    ((0:Int) < 5)
    ∧ ((stA.batches.find? (fun x => x.batch_id == 99) = none →
        (sp_PlaceOrder stA (some 77) (some 99) (some 5)).2
            = Except.error (SpError.batchNotFound 99)
        ∧ (sp_PlaceOrder stA (some 77) (some 99) (some 5)).1 = [StorageEv.readBatch 99])
      ∧ (stA.customers.find? (fun c => c.customer_id == 77) = none →
        (∀ r, (sp_PlaceOrder stA (some 77) (some 99) (some 5)).2 ≠ Except.ok r)
        ∧ (∀ e ∈ (sp_PlaceOrder stA (some 77) (some 99) (some 5)).1, e.isWrite = false)
        ∧ spRun stA (some 77) (some 99) (some 5) = stA)) :=
  ⟨by decide, sp_PlaceOrder_validation stA 77 99 5 (by decide)⟩

/-- C8 counterexample: customer 99 does not exist in `stA`, yet calling
`sp_PlaceOrder` with customer 99 against the existing batch 1 acquires the
row lock on batch 1 — an unknown customer id is not rejected before the
lock, contradicting the claim as stated. -/
theorem sp_PlaceOrder_unknown_customer_takes_lock :
    ((stA.customers.map (fun c => c.customer_id)).contains 99 = false)
    ∧ StorageEv.lockBatch 1 ∈ (sp_PlaceOrder stA (some 99) (some 1) (some 5)).1 := by
  decide

lemma listMax_eq_none {l : List Int} (h : listMax l = none) : l = [] := by
  cases l with
  | nil => rfl
  | cons a t =>
    rw [listMax] at h
    rcases hm : listMax t with _ | m' <;> simp [hm] at h

lemma listMax_le {l : List Int} {m : Int} (h : listMax l = some m) :
    ∀ x ∈ l, x ≤ m := by
  induction l generalizing m with
  | nil => simp [listMax] at h
  | cons a t ih =>
    rw [listMax] at h
    rcases hm : listMax t with _ | m'
    · rw [hm] at h
      injection h with h
      subst h
      have ht : t = [] := listMax_eq_none hm
      subst ht
      intro x hx
      simp at hx
      simp [hx]
    · rw [hm] at h
      injection h with h
      subst h
      intro x hx
      rcases List.mem_cons.mp hx with rfl | hx
      · exact le_max_left _ _
      · exact le_trans (ih hm x hx) (le_max_right _ _)

lemma listMax_mem {l : List Int} {m : Int} (h : listMax l = some m) : m ∈ l := by
  induction l generalizing m with
  | nil => simp [listMax] at h
  | cons a t ih =>
    rw [listMax] at h
    rcases hm : listMax t with _ | m'
    · rw [hm] at h
      injection h with h
      subst h
      exact List.mem_cons_self a t
    · rw [hm] at h
      injection h with h
      subst h
      rcases max_choice a m' with hc | hc <;> rw [hc]
      · exact List.mem_cons_self a t
      · exact List.mem_cons_of_mem a (ih hm)

/-- Every non-null discount of a matching rule is bounded by the resolved
discount. -/
lemma le_maxDiscount (rules : List Pricing_Rule) (sku_id customer_id quantity : Int)
    (r : Pricing_Rule) (hr : r ∈ rules)
    (hm : ruleMatches r sku_id customer_id quantity = true)
    (d : Int) (hd : r.discount_percentage = some d) :
    d ≤ maxDiscount rules sku_id customer_id quantity := by
  have hmem : d ∈ matchingDiscounts rules sku_id customer_id quantity :=
    List.mem_filterMap.mpr ⟨r, List.mem_filter.mpr ⟨hr, hm⟩, hd⟩
  unfold maxDiscount
  rcases hmx : listMax (matchingDiscounts rules sku_id customer_id quantity) with _ | m
  · rw [listMax_eq_none hmx] at hmem
    simp at hmem
  · simpa using listMax_le hmx d hmem

/-- The resolved discount is 0 or is the discount of some matching rule. -/
lemma maxDiscount_cases (rules : List Pricing_Rule) (sku_id customer_id quantity : Int) :
    maxDiscount rules sku_id customer_id quantity = 0
    ∨ ∃ r ∈ rules, ruleMatches r sku_id customer_id quantity = true
        ∧ r.discount_percentage
            = some (maxDiscount rules sku_id customer_id quantity) := by
  unfold maxDiscount
  rcases hmx : listMax (matchingDiscounts rules sku_id customer_id quantity) with _ | m
  · left; rfl
  · right
    have hmem : m ∈ matchingDiscounts rules sku_id customer_id quantity := listMax_mem hmx
    obtain ⟨r, hrf, hrd⟩ := List.mem_filterMap.mp hmem
    obtain ⟨hr, hm⟩ := List.mem_filter.mp hrf
    exact ⟨r, hr, hm, by simpa using hrd⟩

/-- C4: the discount resolved by the pricing query of `sp_PlaceOrder` is the
maximum `discount_percentage` over exactly the rules whose `sku_id` is NULL
(wildcard) or equal to the variant, whose `customer_id` is NULL (wildcard)
or equal to the customer, and whose defaulted `min_quantity` is at most the
quantity: every matching rule's discount is bounded by the result, the
result is 0 or the discount of a single matching rule (never a sum), and
with no matching rule the result is 0. -/
theorem maxDiscount_spec (rules : List Pricing_Rule) (sku_id customer_id quantity : Int) :
    (∀ r, ruleMatches r sku_id customer_id quantity = true ↔
       ((r.sku_id = none ∨ r.sku_id = some sku_id)
        ∧ (r.customer_id = none ∨ r.customer_id = some customer_id)
        ∧ r.min_quantity.getD 1 ≤ quantity))
    ∧ (∀ r ∈ rules, ruleMatches r sku_id customer_id quantity = true →
         ∀ d, r.discount_percentage = some d →
           d ≤ maxDiscount rules sku_id customer_id quantity)
    ∧ (maxDiscount rules sku_id customer_id quantity = 0
       ∨ ∃ r ∈ rules, ruleMatches r sku_id customer_id quantity = true
           ∧ r.discount_percentage
               = some (maxDiscount rules sku_id customer_id quantity))
    ∧ ((∀ r ∈ rules, ruleMatches r sku_id customer_id quantity = false)
       → maxDiscount rules sku_id customer_id quantity = 0) := by
  refine ⟨?_, ?_, maxDiscount_cases rules sku_id customer_id quantity, ?_⟩
  · intro r
    simp [ruleMatches, and_assoc]
  · intro r hr hm d hd
    exact le_maxDiscount rules sku_id customer_id quantity r hr hm d hd
  · intro hnone
    have hfil : rules.filter (fun r => ruleMatches r sku_id customer_id quantity) = [] := by
      rw [List.filter_eq_nil_iff]
      intro a ha
      simp [hnone a ha]
    unfold maxDiscount matchingDiscounts
    rw [hfil]
    rfl

theorem maxDiscount_spec_witness :
    (∀ r, ruleMatches r 1 1 20 = true ↔
       ((r.sku_id = none ∨ r.sku_id = some 1)
        ∧ (r.customer_id = none ∨ r.customer_id = some 1)
        ∧ r.min_quantity.getD 1 ≤ 20))
    ∧ (∀ r ∈ stA.rules, ruleMatches r 1 1 20 = true →
         ∀ d, r.discount_percentage = some d → d ≤ maxDiscount stA.rules 1 1 20)
    ∧ (maxDiscount stA.rules 1 1 20 = 0
       ∨ ∃ r ∈ stA.rules, ruleMatches r 1 1 20 = true
           ∧ r.discount_percentage = some (maxDiscount stA.rules 1 1 20))
    ∧ ((∀ r ∈ stA.rules, ruleMatches r 1 1 20 = false)
       → maxDiscount stA.rules 1 1 20 = 0) :=
  maxDiscount_spec stA.rules 1 1 20

/-- C10: a `Pricing_Rules` row whose `min_quantity` is NULL is treated by
the query's `COALESCE(min_quantity, 1)` exactly as if `min_quantity` were
1: it matches iff the same rule with `min_quantity = 1` matches, for every
positive quantity the quantity threshold is satisfied (so only the two
wildcard conditions remain), and such a rule participates in the
maximum-discount selection. -/
theorem null_min_quantity_defaults_to_one (r : Pricing_Rule)
    (sku_id customer_id quantity : Int) (hr : r.min_quantity = none) :
    (ruleMatches r sku_id customer_id quantity
       = ruleMatches ⟨r.rule_id, r.sku_id, r.customer_id, some 1, r.discount_percentage⟩
           sku_id customer_id quantity)
    ∧ (0 < quantity →
        ruleMatches r sku_id customer_id quantity
          = (decide (r.sku_id = none ∨ r.sku_id = some sku_id) &&
             decide (r.customer_id = none ∨ r.customer_id = some customer_id)))
    ∧ (∀ rules : List Pricing_Rule, r ∈ rules →
        ruleMatches r sku_id customer_id quantity = true →
        ∀ d, r.discount_percentage = some d →
          d ≤ maxDiscount rules sku_id customer_id quantity) := by
  refine ⟨?_, ?_, ?_⟩
  · simp [ruleMatches, hr]
  · intro hq
    have h1 : (1:Int) ≤ quantity := by omega
    simp [ruleMatches, hr, h1]
  · intro rules hmem hmatch d hd
    exact le_maxDiscount rules sku_id customer_id quantity r hmem hmatch d hd

theorem null_min_quantity_defaults_to_one_witness :
    ((⟨7, some 1, none, none, some 500⟩ : Pricing_Rule).min_quantity = none)
    ∧ ((ruleMatches ⟨7, some 1, none, none, some 500⟩ 1 1 3
          = ruleMatches ⟨7, some 1, none, some 1, some 500⟩ 1 1 3)
       ∧ (0 < (3:Int) →
           ruleMatches ⟨7, some 1, none, none, some 500⟩ 1 1 3
             = (decide ((some 1 : Option Int) = none ∨ (some 1 : Option Int) = some 1) &&
                decide ((none : Option Int) = none ∨ (none : Option Int) = some 1)))
       ∧ (∀ rules : List Pricing_Rule, (⟨7, some 1, none, none, some 500⟩ : Pricing_Rule) ∈ rules →
           ruleMatches ⟨7, some 1, none, none, some 500⟩ 1 1 3 = true →
           ∀ d, (⟨7, some 1, none, none, some 500⟩ : Pricing_Rule).discount_percentage = some d →
             d ≤ maxDiscount rules 1 1 3)) :=
  ⟨by decide, null_min_quantity_defaults_to_one ⟨7, some 1, none, none, some 500⟩ 1 1 3 (by decide)⟩

/-- C6: for a nonnegative base price and a discount within [0%, 100%], the
computed unit price is exactly `base_price * (1 - discount/100)` rounded
half-up to a whole number of cents (the floor of the exact rational value
plus one half), the price is never negative, and a 100% discount yields
exactly 0.00. -/
theorem computePrice_spec (base_price discount : Int)
    (hb : 0 ≤ base_price) (h0 : 0 ≤ discount) (h1 : discount ≤ 10000) :
    computePrice base_price discount
      = ⌊(base_price * (10000 - discount) : ℚ) / 10000 + 1/2⌋
    ∧ 0 ≤ computePrice base_price discount
    ∧ computePrice base_price 10000 = 0 := by
  have hnum : 0 ≤ base_price * (10000 - discount) := by
    apply mul_nonneg hb
    omega
  refine ⟨?_, ?_, ?_⟩
  · unfold computePrice sqlRound
    rw [if_pos hnum]
    have key : (base_price : ℚ) * (10000 - (discount : ℚ)) / 10000 + 1/2
        = ((2 * (base_price * (10000 - discount)) + 10000 : Int) : ℚ) / ((20000 : ℕ) : ℚ) := by
      push_cast
      ring
    rw [key, Rat.floor_intCast_div_natCast]
    norm_num
  · unfold computePrice sqlRound
    rw [if_pos hnum]
    apply Int.ediv_nonneg (by omega) (by norm_num)
  · norm_num [computePrice, sqlRound]

theorem computePrice_spec_witness :
    ((0:Int) ≤ 150 ∧ (0:Int) ≤ 1000 ∧ (1000:Int) ≤ 10000)
    ∧ (computePrice 150 1000 = ⌊(150 * (10000 - 1000) : ℚ) / 10000 + 1/2⌋
       ∧ 0 ≤ computePrice 150 1000
       ∧ computePrice 150 10000 = 0) :=
  ⟨⟨by decide, by decide, by decide⟩,
   computePrice_spec 150 1000 (by decide) (by decide) (by decide)⟩

/-- Modelled from the spec: the candidate ordering of the FEFO Batch
Allocator (design §4.2) — `expiry_date` ascending with ties broken by batch
identity ascending.  The repository contains no allocator implementation
(`sp_PlaceOrder` sells from a single caller-chosen batch), so the allocator
of §4.2 is modelled from the specification text. -/
def fefoLE (a b : Inventory_Batch) : Prop :=
  a.expiry_date < b.expiry_date
  ∨ (a.expiry_date = b.expiry_date ∧ a.batch_id ≤ b.batch_id)

instance : DecidableRel fefoLE := fun a b => by
  unfold fefoLE
  infer_instance

instance : IsTotal Inventory_Batch fefoLE :=
  ⟨by
    intro a b
    unfold fefoLE
    omega⟩

instance : IsTrans Inventory_Batch fefoLE :=
  ⟨by
    intro a b c
    unfold fefoLE
    omega⟩

/-- Modelled from the spec: the allocator's candidate set — all batches of
the variant with `quantity_on_hand > 0`, ordered by expiry ascending, ties
by batch identity ascending. -/
def fefoCandidates (batches : List Inventory_Batch) (variant : Int) :
    List Inventory_Batch :=
  List.insertionSort fefoLE
    (batches.filter (fun b => b.sku_id == variant && decide (0 < b.quantity_on_hand)))

/-- Modelled from the spec: allocator failures — `InvalidQuantity` for a
non-positive request, `InsufficientStock` carrying the variant and the
shortfall. -/
inductive AllocError where
  | invalidQuantity
  | insufficientStock (variant shortfall : Int)
deriving DecidableEq, Repr

/-- Modelled from the spec: the allocation walk — visit the candidates in
order, take `min(quantity_on_hand, remaining_need)` from each, stop when
the remaining need is 0; if the candidates are exhausted with positive need
left, fail with the shortfall. -/
def allocGo (cands : List Inventory_Batch) (need : Int) :
    Except Int (List (Inventory_Batch × Int)) :=
  match cands with
  | [] => if need ≤ 0 then Except.ok [] else Except.error need
  | b :: rest =>
    if need ≤ 0 then Except.ok []
    else
      match allocGo rest (need - min b.quantity_on_hand need) with
      | Except.ok plan => Except.ok ((b, min b.quantity_on_hand need) :: plan)
      | Except.error s => Except.error s

/-- Modelled from the spec: `allocate(variant, quantity_needed)` of §4.2. -/
def allocate (batches : List Inventory_Batch) (variant quantity_needed : Int) :
    Except AllocError (List (Inventory_Batch × Int)) :=
  if quantity_needed ≤ 0 then Except.error AllocError.invalidQuantity
  else
    match allocGo (fefoCandidates batches variant) quantity_needed with
    | Except.ok plan => Except.ok plan
    | Except.error shortfall =>
      Except.error (AllocError.insufficientStock variant shortfall)

lemma allocGo_nonpos (cands : List Inventory_Batch) {need : Int} (h : need ≤ 0) :
    allocGo cands need = Except.ok [] := by
  cases cands <;> simp [allocGo, h]

lemma allocGo_take {cands : List Inventory_Batch} {need : Int}
    {plan : List (Inventory_Batch × Int)} (h : allocGo cands need = Except.ok plan) :
    ∃ k, plan.map Prod.fst = cands.take k := by
  induction cands generalizing need plan with
  | nil =>
    rw [allocGo] at h
    split at h
    · injection h with h
      exact ⟨0, by simp [← h]⟩
    · exact Except.noConfusion h
  | cons b rest ih =>
    rw [allocGo] at h
    split at h
    · injection h with h
      exact ⟨0, by simp [← h]⟩
    · rcases hrec : allocGo rest (need - min b.quantity_on_hand need) with s | plan'
      · rw [hrec] at h
        exact Except.noConfusion h
      · rw [hrec] at h
        injection h with h
        obtain ⟨k, hk⟩ := ih hrec
        exact ⟨k + 1, by simp [← h, hk]⟩

lemma allocGo_mem {cands : List Inventory_Batch} {need : Int}
    {plan : List (Inventory_Batch × Int)}
    (hpos : ∀ b ∈ cands, 0 < b.quantity_on_hand)
    (h : allocGo cands need = Except.ok plan) :
    ∀ y ∈ plan, 0 < y.2 ∧ y.2 ≤ y.1.quantity_on_hand := by
  induction cands generalizing need plan with
  | nil =>
    rw [allocGo] at h
    split at h
    · injection h with h
      simp [← h]
    · exact Except.noConfusion h
  | cons b rest ih =>
    rw [allocGo] at h
    split at h
    · injection h with h
      simp [← h]
    · rename_i hn
      rcases hrec : allocGo rest (need - min b.quantity_on_hand need) with s | plan'
      · rw [hrec] at h
        exact Except.noConfusion h
      · rw [hrec] at h
        injection h with h
        intro y hy
        rw [← h] at hy
        rcases List.mem_cons.mp hy with rfl | hy
        · have hb := hpos b (List.mem_cons_self b rest)
          constructor
          · simp only
            omega
          · simp only
            omega
        · exact ih (fun x hx => hpos x (List.mem_cons_of_mem b hx)) hrec y hy

lemma allocGo_sum {cands : List Inventory_Batch} {need : Int}
    {plan : List (Inventory_Batch × Int)} (hneed : 0 ≤ need)
    (h : allocGo cands need = Except.ok plan) :
    (plan.map Prod.snd).sum = need := by
  induction cands generalizing need plan with
  | nil =>
    rw [allocGo] at h
    split at h
    · rename_i hn
      injection h with h
      rw [← h]
      simp only [List.map_nil, List.sum_nil]
      omega
    · exact Except.noConfusion h
  | cons b rest ih =>
    rw [allocGo] at h
    split at h
    · rename_i hn
      injection h with h
      rw [← h]
      simp only [List.map_nil, List.sum_nil]
      omega
    · rename_i hn
      rcases hrec : allocGo rest (need - min b.quantity_on_hand need) with s | plan'
      · rw [hrec] at h
        exact Except.noConfusion h
      · rw [hrec] at h
        injection h with h
        have hsum := ih (by omega) hrec
        rw [← h]
        simp only [List.map_cons, List.sum_cons, hsum]
        omega

lemma allocGo_pos_need {cands : List Inventory_Batch} {need : Int}
    {plan : List (Inventory_Batch × Int)}
    (h : allocGo cands need = Except.ok plan) (hne : plan ≠ []) : 0 < need := by
  rcases le_or_lt need 0 with hle | hlt
  · rw [allocGo_nonpos cands hle] at h
    injection h with h
    exact absurd h.symm hne
  · exact hlt

lemma allocGo_full {cands : List Inventory_Batch} {need : Int}
    {plan : List (Inventory_Batch × Int)}
    (h : allocGo cands need = Except.ok plan) :
    plan.Pairwise (fun x y => x.2 = x.1.quantity_on_hand) := by
  induction cands generalizing need plan with
  | nil =>
    rw [allocGo] at h
    split at h
    · injection h with h
      simp [← h]
    · exact Except.noConfusion h
  | cons b rest ih =>
    rw [allocGo] at h
    split at h
    · injection h with h
      simp [← h]
    · rename_i hn
      rcases hrec : allocGo rest (need - min b.quantity_on_hand need) with s | plan'
      · rw [hrec] at h
        exact Except.noConfusion h
      · rw [hrec] at h
        injection h with h
        rw [← h]
        refine List.Pairwise.cons ?_ (ih hrec)
        intro y hy
        have hpos := allocGo_pos_need hrec (List.ne_nil_of_mem hy)
        simp only
        omega

lemma mem_fefoCandidates {batches : List Inventory_Batch} {variant : Int}
    {b : Inventory_Batch} :
    b ∈ fefoCandidates batches variant
      ↔ (b ∈ batches ∧ b.sku_id = variant ∧ 0 < b.quantity_on_hand) := by
  unfold fefoCandidates
  rw [(List.perm_insertionSort fefoLE _).mem_iff]
  simp [List.mem_filter, and_assoc]

/-- C3: a successful allocation plan visits a take-prefix of the FEFO
candidate list (exactly the batches of the variant with positive stock,
sorted by expiry then batch id): the planned batches are strictly ascending
in (expiry, batch id), every planned batch belongs to the variant and has
positive stock, each taken quantity is positive and bounded by the batch's
stock (it is `min(quantity_on_hand, remaining_need)`, so every batch except
possibly the last is taken in full), and the taken quantities sum to the
request.  As a pure function of the stock state, repeated allocation under
an identical state yields the identical plan. -/
theorem allocate_fefo (batches : List Inventory_Batch) (variant q : Int)
    (plan : List (Inventory_Batch × Int))
    (hnd : (batches.map (fun b => b.batch_id)).Nodup)
    (hok : allocate batches variant q = Except.ok plan) :
    (∃ k, plan.map Prod.fst = (fefoCandidates batches variant).take k)
    ∧ (∀ y ∈ plan, y.1 ∈ batches ∧ y.1.sku_id = variant ∧ 0 < y.1.quantity_on_hand
        ∧ 0 < y.2 ∧ y.2 ≤ y.1.quantity_on_hand)
    ∧ plan.Pairwise (fun x y => x.1.expiry_date < y.1.expiry_date
        ∨ (x.1.expiry_date = y.1.expiry_date ∧ x.1.batch_id < y.1.batch_id))
    ∧ plan.Pairwise (fun x y => x.2 = x.1.quantity_on_hand)
    ∧ (plan.map Prod.snd).sum = q := by
  unfold allocate at hok
  split at hok
  · exact Except.noConfusion hok
  · rename_i hq
    rcases hgo : allocGo (fefoCandidates batches variant) q with s | plan'
    · rw [hgo] at hok
      exact Except.noConfusion hok
    · rw [hgo] at hok
      injection hok with hok
      rw [hok] at hgo
      have hposall : ∀ b ∈ fefoCandidates batches variant, 0 < b.quantity_on_hand :=
        fun b hb => (mem_fefoCandidates.mp hb).2.2
      have hndc : ((fefoCandidates batches variant).map (fun b => b.batch_id)).Nodup := by

        have hperm : (fefoCandidates batches variant).map (fun b => b.batch_id)
            |>.Perm ((batches.filter
              (fun b => b.sku_id == variant && decide (0 < b.quantity_on_hand))).map
                (fun b => b.batch_id)) :=
          (List.perm_insertionSort fefoLE _).map _
        refine hperm.symm.nodup ?_
        exact List.Nodup.sublist
          ((List.filter_sublist batches).map (fun b => b.batch_id)) hnd
      have hsorted : (fefoCandidates batches variant).Pairwise fefoLE :=
        List.sorted_insertionSort fefoLE _
      have hne : (fefoCandidates batches variant).Pairwise
          (fun a b => a.batch_id ≠ b.batch_id) :=
        List.pairwise_map.mp hndc
      have hstrict : (fefoCandidates batches variant).Pairwise
          (fun a b => a.expiry_date < b.expiry_date
            ∨ (a.expiry_date = b.expiry_date ∧ a.batch_id < b.batch_id)) := by
        refine (hsorted.and hne).imp ?_
        intro a b hab
        rcases hab with ⟨hle, hneq⟩
        unfold fefoLE at hle
        omega
      obtain ⟨k, hk⟩ := allocGo_take hgo
      refine ⟨⟨k, hk⟩, ?_, ?_, allocGo_full hgo, ?_⟩
      · intro y hy
        have hyc : y.1 ∈ fefoCandidates batches variant := by
          have : y.1 ∈ plan.map Prod.fst := List.mem_map_of_mem Prod.fst hy
          rw [hk] at this
          exact (List.take_sublist k _).mem this
        obtain ⟨h1, h2, h3⟩ := mem_fefoCandidates.mp hyc
        obtain ⟨h4, h5⟩ := allocGo_mem hposall hgo y hy
        exact ⟨h1, h2, h3, h4, h5⟩
      · have htake : (plan.map Prod.fst).Pairwise
            (fun a b => a.expiry_date < b.expiry_date
              ∨ (a.expiry_date = b.expiry_date ∧ a.batch_id < b.batch_id)) := by
          rw [hk]
          exact List.Pairwise.sublist (List.take_sublist k _) hstrict
        exact List.pairwise_map.mp htake
      · exact allocGo_sum (by omega) hgo

theorem allocate_fefo_witness :
    ((([⟨2, 5, "B", 20270101, 10, 100⟩,
        ⟨1, 5, "A", 20260101, 5, 100⟩] : List Inventory_Batch).map
          (fun b => b.batch_id)).Nodup
     ∧ allocate [⟨2, 5, "B", 20270101, 10, 100⟩, ⟨1, 5, "A", 20260101, 5, 100⟩] 5 8
         = Except.ok [(⟨1, 5, "A", 20260101, 5, 100⟩, 5),
                      (⟨2, 5, "B", 20270101, 10, 100⟩, 3)])
    ∧ ((∃ k, ([(⟨1, 5, "A", 20260101, 5, 100⟩, (5:Int)),
               (⟨2, 5, "B", 20270101, 10, 100⟩, 3)] : List (Inventory_Batch × Int)).map
                 Prod.fst
          = (fefoCandidates [⟨2, 5, "B", 20270101, 10, 100⟩,
                             ⟨1, 5, "A", 20260101, 5, 100⟩] 5).take k)
       ∧ (∀ y ∈ ([(⟨1, 5, "A", 20260101, 5, 100⟩, (5:Int)),
                  (⟨2, 5, "B", 20270101, 10, 100⟩, 3)] : List (Inventory_Batch × Int)),
            y.1 ∈ ([⟨2, 5, "B", 20270101, 10, 100⟩,
                    ⟨1, 5, "A", 20260101, 5, 100⟩] : List Inventory_Batch)
            ∧ y.1.sku_id = 5 ∧ 0 < y.1.quantity_on_hand
            ∧ 0 < y.2 ∧ y.2 ≤ y.1.quantity_on_hand)
       ∧ ([(⟨1, 5, "A", 20260101, 5, 100⟩, (5:Int)),
           (⟨2, 5, "B", 20270101, 10, 100⟩, 3)] : List (Inventory_Batch × Int)).Pairwise
            (fun x y => x.1.expiry_date < y.1.expiry_date
              ∨ (x.1.expiry_date = y.1.expiry_date ∧ x.1.batch_id < y.1.batch_id))
       ∧ ([(⟨1, 5, "A", 20260101, 5, 100⟩, (5:Int)),
           (⟨2, 5, "B", 20270101, 10, 100⟩, 3)] : List (Inventory_Batch × Int)).Pairwise
            (fun x y => x.2 = x.1.quantity_on_hand)
       ∧ (([(⟨1, 5, "A", 20260101, 5, 100⟩, (5:Int)),
            (⟨2, 5, "B", 20270101, 10, 100⟩, 3)] : List (Inventory_Batch × Int)).map
              Prod.snd).sum = 8) :=
  ⟨⟨by decide, by decide⟩,
   allocate_fefo [⟨2, 5, "B", 20270101, 10, 100⟩, ⟨1, 5, "A", 20260101, 5, 100⟩] 5 8
     [(⟨1, 5, "A", 20260101, 5, 100⟩, 5), (⟨2, 5, "B", 20270101, 10, 100⟩, 3)]
     (by decide) (by decide)⟩

/-- Modelled from the spec: the error taxonomy of the fulfillment core
(§7) as seen by `fulfill_line` and the Checkout Orchestrator. -/
inductive CoreError where
  | invalidQuantity
  | notFoundCustomer (customer : Int)
  | notFoundVariant (variant : Int)
  | insufficientStock (variant shortfall : Int)
deriving DecidableEq, Repr

/-- Modelled from the spec: the Persisting step of §4.3 — decrement
`quantity_on_hand` of each planned batch by its taken quantity. -/
def applyPlan (batches : List Inventory_Batch) (plan : List (Inventory_Batch × Int)) :
    List Inventory_Batch :=
  batches.map (fun b =>
    match plan.find? (fun y => y.1.batch_id == b.batch_id) with
    | some y => { b with quantity_on_hand := b.quantity_on_hand - y.2 }
    | none => b)

/-- Modelled from the spec: `fulfill_line(customer, variant, quantity)`
(§4.3) — validate, allocate FEFO, price once per line on the total
quantity, then persist the decrements and the order lines against the given
order.  The repository implements no multi-line fulfillment; this follows
the specification text. -/
def fulfill_line (st : DBState) (customer variant quantity order_id : Int) :
    Except CoreError DBState :=
  if quantity ≤ 0 then Except.error CoreError.invalidQuantity
  else if (st.customers.find? (fun c => c.customer_id == customer)).isNone then
    Except.error (CoreError.notFoundCustomer customer)
  else
    match st.skus.find? (fun s => s.sku_id == variant) with
    | none => Except.error (CoreError.notFoundVariant variant)
    | some sku =>
      match allocate st.batches variant quantity with
      | Except.error AllocError.invalidQuantity => Except.error CoreError.invalidQuantity
      | Except.error (AllocError.insufficientStock v s) =>
        Except.error (CoreError.insufficientStock v s)
      | Except.ok plan =>
        let price := computePrice sku.base_price
          (maxDiscount st.rules variant customer quantity)
        Except.ok
          { st with
            batches := applyPlan st.batches plan
            order_items := st.order_items ++ plan.enum.map (fun y =>
              ⟨st.next_order_item_id + (y.1 : Int), order_id, y.2.1.batch_id, y.2.2, price⟩)
            next_order_item_id := st.next_order_item_id + plan.length }

/-- Modelled from the spec: the Checkout Orchestrator first creates the
`Orders` row in `pending` status, so that it has an identity to attach
lines to (§4.4). -/
def insertPendingOrder (st : DBState) (customer : Int) : DBState :=
  { st with
    orders := st.orders ++ [⟨st.next_order_id, customer, "pending"⟩]
    next_order_id := st.next_order_id + 1 }

/-- Modelled from the spec: run `fulfill_line` once per cart line, stopping
at the first error (§4.4). -/
def checkoutGo (customer order_id : Int) :
    DBState → List (Int × Int) → Except CoreError DBState
  | st, [] => Except.ok st
  | st, (variant, quantity) :: rest =>
    match fulfill_line st customer variant quantity order_id with
    | Except.error e => Except.error e
    | Except.ok st2 => checkoutGo customer order_id st2 rest

/-- Modelled from the spec: `checkout(customer, cart_lines)` (§4.4) — one
transaction spanning all lines: create the pending order, then fulfill each
line in turn. -/
def checkout (st : DBState) (customer : Int) (cart_lines : List (Int × Int)) :
    Except CoreError (DBState × Int) :=
  match checkoutGo customer st.next_order_id (insertPendingOrder st customer) cart_lines with
  | Except.error e => Except.error e
  | Except.ok st2 => Except.ok (st2, st.next_order_id)

/-- Modelled from the spec: the all-or-nothing transaction boundary — when
any line fails, the entire checkout transaction (the order row and every
already-applied decrement) is rolled back and the database keeps its
previous state. -/
def checkoutRun (st : DBState) (customer : Int) (cart_lines : List (Int × Int)) :
    DBState :=
  match checkout st customer cart_lines with
  | Except.ok (st2, _) => st2
  | Except.error _ => st

lemma checkoutGo_append (customer order_id : Int) (st : DBState)
    (l1 l2 : List (Int × Int)) :
    checkoutGo customer order_id st (l1 ++ l2)
      = match checkoutGo customer order_id st l1 with
        | Except.ok st2 => checkoutGo customer order_id st2 l2
        | Except.error e => Except.error e := by
  induction l1 generalizing st with
  | nil => simp [checkoutGo]
  | cons a rest ih =>
    rcases a with ⟨v, q⟩
    rw [List.cons_append, checkoutGo, checkoutGo]
    cases hf : fulfill_line st customer v q order_id with
    | error e => simp
    | ok st2 => simp [ih]

/-- C5: if, while the checkout processes its cart lines in order, some line
fails with `InsufficientStock` (all lines before it having succeeded and
applied their decrements), then the whole checkout returns that single
`InsufficientStock` error and the rolled-back transaction leaves the
database exactly as before the checkout: no `Orders` row persists and no
batch decrement from any earlier line of the cart survives. -/
theorem checkout_atomic (st : DBState) (customer : Int)
    (cart_lines : List (Int × Int)) (i : Nat) (hi : i < cart_lines.length)
    (stMid : DBState) (v s : Int)
    (hpre : checkoutGo customer st.next_order_id (insertPendingOrder st customer)
        (cart_lines.take i) = Except.ok stMid)
    (hfail : fulfill_line stMid customer (cart_lines.get ⟨i, hi⟩).1
        (cart_lines.get ⟨i, hi⟩).2 st.next_order_id
        = Except.error (CoreError.insufficientStock v s)) :
    checkout st customer cart_lines = Except.error (CoreError.insufficientStock v s)
    ∧ checkoutRun st customer cart_lines = st
    ∧ (checkoutRun st customer cart_lines).orders = st.orders
    ∧ (checkoutRun st customer cart_lines).batches = st.batches := by
  rcases hget : cart_lines.get ⟨i, hi⟩ with ⟨vv, qq⟩
  rw [hget] at hfail
  have hsplit : cart_lines = cart_lines.take i ++ ((vv, qq) :: cart_lines.drop (i + 1)) := by
    rw [← hget, List.get_eq_getElem, ← List.drop_eq_getElem_cons hi,
      List.take_append_drop]
  have hgo : checkoutGo customer st.next_order_id (insertPendingOrder st customer)
      cart_lines = Except.error (CoreError.insufficientStock v s) := by
    conv_lhs => rw [hsplit]
    rw [checkoutGo_append, hpre]
    simp only [checkoutGo]
    rw [hfail]
  have hck : checkout st customer cart_lines
      = Except.error (CoreError.insufficientStock v s) := by
    unfold checkout
    rw [hgo]
  have hrun : checkoutRun st customer cart_lines = st := by
    unfold checkoutRun
    rw [hck]
  exact ⟨hck, hrun, by rw [hrun], by rw [hrun]⟩

/-- Sample state for the checkout witness: one customer, one SKU at 2.00,
one batch with 10 on hand, no discount rules. -/
def stW : DBState :=
  { customers := [⟨1, "C"⟩]
    skus := [⟨1, 1, 200⟩]
    batches := [⟨1, 1, "X", 20270101, 10, 100⟩]
    rules := []
    orders := []
    order_items := []
    next_order_id := 1
    next_order_item_id := 1 }

/-- The state reached after the pending order and the first cart line of
the checkout witness (4 of 10 units allocated). -/
def stWmid : DBState :=
  { customers := [⟨1, "C"⟩]
    skus := [⟨1, 1, 200⟩]
    batches := [⟨1, 1, "X", 20270101, 6, 100⟩]
    rules := []
    orders := [⟨1, 1, "pending"⟩]
    order_items := [⟨1, 1, 1, 4, 200⟩]
    next_order_id := 2
    next_order_item_id := 2 }

theorem checkout_atomic_witness :
    ((1:Nat) < ([(1, 4), (1, 99)] : List (Int × Int)).length
     ∧ checkoutGo 1 stW.next_order_id (insertPendingOrder stW 1)
         (([(1, 4), (1, 99)] : List (Int × Int)).take 1) = Except.ok stWmid
     ∧ fulfill_line stWmid 1 1 99 stW.next_order_id
         = Except.error (CoreError.insufficientStock 1 93))
    ∧ (checkout stW 1 [(1, 4), (1, 99)] = Except.error (CoreError.insufficientStock 1 93)
       ∧ checkoutRun stW 1 [(1, 4), (1, 99)] = stW
       ∧ (checkoutRun stW 1 [(1, 4), (1, 99)]).orders = stW.orders
       ∧ (checkoutRun stW 1 [(1, 4), (1, 99)]).batches = stW.batches) :=
  ⟨⟨by decide, by decide, by decide⟩,
   checkout_atomic stW 1 [(1, 4), (1, 99)] 1 (by decide) stWmid 1 93
     (by decide) (by decide)⟩

end PharmAssist
